import Mathlib

/-!
Verification development for the Attio search-engine repository.

The repository consists of three Python scripts:
  * `app.py` — a search UI whose core helper is `get_context_snippet`, a
    snippet/highlight generator, plus a websearch→plain text-search fallback;
  * `sync_attio.py` — the V39 sync pipeline (`make_request`, `safe_upsert`,
    `sync_transcripts_smart`, `sync_notes_cached`, `sync_standard`);
  * `ai_studio_code.py` — an earlier sync variant (`attio_get`, `upsert_item`).

Below, each Python function is shallowly embedded as an executable Lean
definition over `List Char` / explicit outcome types, and the frozen claims
about the spec are settled as theorems about those definitions.  Strings are
modelled as `List Char`; HTTP and database effects are modelled by passing an
explicit outcome/server function.  Python's ASCII-relevant semantics of
`str.lower`, `\w`, `str.split`, and slicing are reproduced on `List Char`.
-/

set_option maxRecDepth 100000

namespace Attio

/-! ## `app.py`: the snippet and highlight generator (`get_context_snippet`) -/

/-- Python whitespace for `str.split()` (ASCII fragment). -/
def isWs (c : Char) : Bool :=
  c = ' ' || c = '\t' || c = '\n' || c = '\r'

/-- Python `\w` word character (ASCII fragment): letters, digits, underscore. -/
def isWordChar (c : Char) : Bool :=
  c.isAlpha || c.isDigit || c = '_'

/-- Worker for `splitWs`: accumulates the current word (reversed). -/
def splitWsGo : List Char → List Char → List (List Char)
  | [], acc => if acc = [] then [] else [acc.reverse]
  | c :: rest, acc =>
    if isWs c then
      if acc = [] then splitWsGo rest [] else acc.reverse :: splitWsGo rest []
    else
      splitWsGo rest (c :: acc)

/-- Python `text.split()`: split on whitespace runs, dropping empty pieces. -/
def splitWs (l : List Char) : List (List Char) :=
  splitWsGo l []

/-- Python `" ".join(text.split())` — collapse all whitespace runs to single
spaces (app.py line 52). -/
def collapseWs (l : List Char) : List Char :=
  List.intercalate [' '] (splitWs l)

/-- Python `re.sub(r'[^\w\s]', '', query).strip()` (app.py line 54): drop characters
that are neither word characters nor whitespace, then trim whitespace. -/
def cleanQuery (q : List Char) : List Char :=
  (((q.filter fun c => isWordChar c || isWs c).dropWhile isWs).reverse.dropWhile isWs).reverse

/-- The query words `clean_query.split()` (app.py line 55). -/
def queryWords (q : List Char) : List (List Char) :=
  splitWs (cleanQuery q)

/-- Case-insensitive test that `pat` begins at the head of `t`
(the per-position step of `re.search(re.escape(pat), text, re.IGNORECASE)`). -/
def ciStartsWith (pat t : List Char) : Bool :=
  (t.take pat.length).map Char.toLower = pat.map Char.toLower

/-- Python `re.search(re.escape(pat), text, re.IGNORECASE)`: index of the leftmost
case-insensitive literal occurrence of `pat` in `text`. -/
def searchCI (pat : List Char) : List Char → Option Nat
  | [] => if pat = [] then some 0 else none
  | c :: rest =>
    if ciStartsWith pat (c :: rest) then some 0
    else (searchCI pat rest).map (· + 1)

/-- The literal-match loop (app.py lines 61-66): first query word of length
greater than 1 that occurs in the text; returns `(start, end, word)` like the
Python `match.start()`, `match.end()`, `matched_word`. -/
def findLiteral : List (List Char) → List Char → Option (Nat × Nat × List Char)
  | [], _ => none
  | w :: rest, text =>
    if 1 < w.length then
      match searchCI w text with
      | some i => some (i, i + w.length, w)
      | none => findLiteral rest text
    else
      findLiteral rest text

/-- The fixed suffix priority list (app.py line 69). -/
def suffixList : List (List Char) :=
  [String.data "ation", String.data "tional", String.data "tion",
   String.data "sion", String.data "ment", String.data "ing",
   String.data "ed", String.data "es", String.data "s", String.data "al"]

/-- Python `root.endswith(s)` on lists of characters (case-sensitive). -/
def endsWithL (w s : List Char) : Bool :=
  w.drop (w.length - s.length) = s

/-- The suffix-stripping step (app.py lines 72-76): strip the first suffix of
`suffixList` that `w` ends with (at most one), keeping `w` otherwise. -/
def stripOneSuffix (w : List Char) : List Char :=
  match suffixList.find? (fun s => endsWithL w s) with
  | some s => w.take (w.length - s.length)
  | none => w

/-- The stemming fallback loop (app.py lines 70-81): for each query word of
length greater than 4, strip one suffix and retry the search, provided the
root keeps at least 3 characters. -/
def findStem : List (List Char) → List Char → Option (Nat × Nat × List Char)
  | [], _ => none
  | w :: rest, text =>
    if 4 < w.length then
      let root := stripOneSuffix w
      if 3 ≤ root.length then
        match searchCI root text with
        | some i => some (i, i + root.length, root)
        | none => findStem rest text
      else findStem rest text
    else findStem rest text

/-- The overall match search of `get_context_snippet`: the literal loop first,
the stemming loop only if every literal search failed (app.py lines 61-81). -/
def snippetMatch (ws : List (List Char)) (text : List Char) :
    Option (Nat × Nat × List Char) :=
  match findLiteral ws text with
  | some r => some r
  | none => findStem ws text

/-- The `"..."` ellipsis affixed at cut boundaries (app.py lines 90-91). -/
def dots : List Char :=
  String.data "..."

/-- The slice `text[start_cut:end_cut]` with `start_cut = max(0, start_idx - window)` and
`end_cut = min(len(text), end_idx + window)` (app.py lines 86-89); `Nat`
subtraction supplies the `max 0`. -/
def snippetSlice (t : List Char) (s e window : Nat) : List Char :=
  (t.drop (s - window)).take (min t.length (e + window) - (s - window))

/-- The un-highlighted snippet of the match case (app.py lines 86-91): the
window slice with an ellipsis on each cut boundary. -/
def snippetCoreMatch (t : List Char) (s e window : Nat) : List Char :=
  (if 0 < s - window then dots else []) ++ snippetSlice t s e window ++
    (if min t.length (e + window) < t.length then dots else [])

/-- The inline CSS of the highlight marker (app.py line 98). -/
def highlightStyle : List Char :=
  String.data "background-color: #ffd700; color: black; padding: 0 4px; border-radius: 3px; font-weight: bold; box-shadow: 0 1px 2px rgba(0,0,0,0.1);"

/-- Opening tag of the highlight marker inserted by the `re.sub` replacement
template (app.py line 102). -/
def spanOpen : List Char :=
  String.data "<span style=\"" ++ highlightStyle ++ String.data "\">"

/-- Closing tag of the highlight marker. -/
def spanClose : List Char :=
  String.data "</span>"

/-- The list `highlight_terms` (app.py lines 93-95): words longer than one character,
plus the matched root when it is not itself one of the words. -/
def highlightTerms (ws : List (List Char)) (mw : List Char) : List (List Char) :=
  (ws.filter fun w => 1 < w.length) ++
    (if mw ≠ [] ∧ mw ∉ ws then [mw] else [])

/-- Length of the `\w*` run at the head of `t` (the greedy tail of the
highlight pattern `(w1|…|wn\w*)`). -/
def wordRunLen (t : List Char) : Nat :=
  (t.takeWhile isWordChar).length

/-- One match attempt of the alternation `w1|…|wn\w*` at the head of `t`:
Python tries alternatives left to right and only the last one carries the
`\w*` tail (the f-string at app.py line 101 appends `\w*` after the final
alternative).  Returns the number of characters matched. -/
def firstAlt : List (List Char) → List Char → Option Nat
  | [], _ => none
  | [a], t =>
    if ciStartsWith a t then some (a.length + wordRunLen (t.drop a.length))
    else none
  | a :: rest, t =>
    if ciStartsWith a t then some a.length else firstAlt rest t

/-- Scanner of `re.sub(f"({pattern}\w*)", span, snippet, re.IGNORECASE)`
(app.py lines 100-105): wrap each non-overlapping leftmost match in the span
markers.  `fuel` bounds the scan by the text length (each step consumes at
least one character; a zero-length match cannot occur because every
alternative is a word of length at least 2 or a root of length at least 3,
but the guard keeps the recursion structural). -/
def highlightGo (alts : List (List Char)) : Nat → List Char → List Char
  | 0, t => t
  | _ + 1, [] => []
  | fuel + 1, c :: rest =>
    match firstAlt alts (c :: rest) with
    | some n =>
      if n = 0 then c :: highlightGo alts fuel rest
      else
        spanOpen ++ (c :: rest).take n ++ spanClose ++
          highlightGo alts fuel ((c :: rest).drop n)
    | none => c :: highlightGo alts fuel rest

/-- The highlight substitution applied to the snippet. -/
def highlight (alts : List (List Char)) (t : List Char) : List Char :=
  highlightGo alts t.length t

/-- The function `get_context_snippet(text, query, window)` (app.py lines 50-108). -/
def getContextSnippet (text query : List Char) (window : Nat) : List Char :=
  if text = [] then []
  else
    let t := collapseWs text
    let ws := queryWords query
    match snippetMatch ws t with
    | some (s, e, mw) =>
      highlight (highlightTerms ws mw) (snippetCoreMatch t s e window)
    | none => t.take (2 * window) ++ dots

/-- Concrete content for the C1 counterexample: 250 `x`s, the query word
`ab`, then 250 more `x`s, so both window cuts are interior. -/
def c1Text : List Char :=
  List.replicate 250 'x' ++ String.data "ab" ++ List.replicate 250 'x'

/-! ### Helper lemmas about the match search -/

theorem findLiteral_span : ∀ (ws : List (List Char)) (t : List Char)
    (s e : Nat) (mw : List Char),
    findLiteral ws t = some (s, e, mw) → e = s + mw.length := by
  intro ws
  induction ws with
  | nil => intro t s e mw h; simp [findLiteral] at h
  | cons w rest ih =>
    intro t s e mw h
    rw [findLiteral] at h
    by_cases hw : 1 < w.length
    · rw [if_pos hw] at h
      cases hs : searchCI w t with
      | some i =>
        rw [hs] at h
        simp only [Option.some.injEq, Prod.mk.injEq] at h
        obtain ⟨h1, h2, h3⟩ := h
        subst h1; subst h3; omega
      | none =>
        rw [hs] at h
        exact ih t s e mw h
    · rw [if_neg hw] at h
      exact ih t s e mw h

theorem findStem_span : ∀ (ws : List (List Char)) (t : List Char)
    (s e : Nat) (mw : List Char),
    findStem ws t = some (s, e, mw) → e = s + mw.length := by
  intro ws
  induction ws with
  | nil => intro t s e mw h; simp [findStem] at h
  | cons w rest ih =>
    intro t s e mw h
    rw [findStem] at h
    by_cases hw : 4 < w.length
    · rw [if_pos hw] at h
      by_cases hr : 3 ≤ (stripOneSuffix w).length
      · rw [if_pos hr] at h
        cases hs : searchCI (stripOneSuffix w) t with
        | some i =>
          rw [hs] at h
          simp only [Option.some.injEq, Prod.mk.injEq] at h
          obtain ⟨h1, h2, h3⟩ := h
          subst h1; subst h3; omega
        | none =>
          rw [hs] at h
          exact ih t s e mw h
      · rw [if_neg hr] at h
        exact ih t s e mw h
    · rw [if_neg hw] at h
      exact ih t s e mw h

theorem snippetMatch_span (ws : List (List Char)) (t : List Char)
    (s e : Nat) (mw : List Char)
    (h : snippetMatch ws t = some (s, e, mw)) : e = s + mw.length := by
  rw [snippetMatch] at h
  cases hl : findLiteral ws t with
  | some r =>
    rw [hl] at h
    cases h
    exact findLiteral_span ws t s e mw hl
  | none =>
    rw [hl] at h
    exact findStem_span ws t s e mw h

theorem findLiteral_filter : ∀ (ws : List (List Char)) (t : List Char),
    findLiteral ws t = findLiteral (ws.filter fun w => 1 < w.length) t := by
  intro ws
  induction ws with
  | nil => intro t; rfl
  | cons w rest ih =>
    intro t
    by_cases h : 1 < w.length
    · rw [List.filter_cons_of_pos (by simpa using h)]
      rw [findLiteral, findLiteral, if_pos h, if_pos h]
      cases searchCI w t with
      | some i => rfl
      | none => exact ih t
    · rw [List.filter_cons_of_neg (by simpa using h)]
      rw [findLiteral, if_neg h]
      exact ih t

/-! ### Claim C1 -/

/-- C1 counterexample: with `window = 200`, content of 502 characters whose
only occurrence of the query `ab` sits 250 characters in, the returned
snippet is strictly longer than `2×window + 2×len("...") = 406` (the window
is cut around the match, both ellipses are affixed, and the highlight markup
is added on top), refuting the claimed length bound. -/
theorem c1_counterexample :
    406 < (getContextSnippet c1Text (String.data "ab") 200).length := by decide

/-- C1 amended: the length bound holds for the snippet before highlight
markup and must also account for the matched term: the un-highlighted
snippet of the match case is at most `2×window + len(matched term) +
2×len("...")` characters, and its window slice is a contiguous substring of
the whitespace-collapsed content (not of the raw content); in the no-match
case the returned string is the first `2×window` characters of the collapsed
content plus one ellipsis, of length at most `2×window + 3`. -/
theorem c1_amended :
    (∀ (text query : List Char) (window s e : Nat) (mw : List Char),
      snippetMatch (queryWords query) (collapseWs text) = some (s, e, mw) →
      (snippetCoreMatch (collapseWs text) s e window).length
          ≤ 2 * window + mw.length + 2 * dots.length
        ∧ ∃ pre post, collapseWs text =
            pre ++ snippetSlice (collapseWs text) s e window ++ post)
    ∧ (∀ (text query : List Char) (window : Nat), text ≠ [] →
      snippetMatch (queryWords query) (collapseWs text) = none →
      getContextSnippet text query window
          = (collapseWs text).take (2 * window) ++ dots
        ∧ (getContextSnippet text query window).length ≤ 2 * window + dots.length) := by
  constructor
  · intro text query window s e mw h
    have hspan := snippetMatch_span _ _ _ _ _ h
    constructor
    · have hslice : (snippetSlice (collapseWs text) s e window).length
          ≤ 2 * window + mw.length := by
        rw [snippetSlice]
        simp only [List.length_take, List.length_drop]
        omega
      rw [snippetCoreMatch]
      simp only [List.length_append, apply_ite List.length, List.length_nil]
      have hd : dots.length = 3 := by decide
      split <;> split <;> omega
    · refine ⟨(collapseWs text).take (s - window),
        ((collapseWs text).drop (s - window)).drop
          (min (collapseWs text).length (e + window) - (s - window)), ?_⟩
      rw [snippetSlice, List.append_assoc, List.take_append_drop,
        List.take_append_drop]
  · intro text query window htext h
    have hres : getContextSnippet text query window
        = (collapseWs text).take (2 * window) ++ dots := by
      simp only [getContextSnippet, if_neg htext, h]
    refine ⟨hres, ?_⟩
    rw [hres]
    simp only [List.length_append, List.length_take]
    omega

/-- Witness for `c1_amended`: the match case at content `"hello world"`,
query `"world"`, window 200, and the no-match case at content `"xyz"`,
query `"qq"`. -/
theorem c1_amended_witness :
    ((snippetCoreMatch (collapseWs (String.data "hello world")) 6 11 200).length
        ≤ 2 * 200 + (String.data "world").length + 2 * dots.length
      ∧ ∃ pre post, collapseWs (String.data "hello world") =
          pre ++ snippetSlice (collapseWs (String.data "hello world")) 6 11 200 ++ post)
    ∧ (getContextSnippet (String.data "xyz") (String.data "qq") 200
          = (collapseWs (String.data "xyz")).take (2 * 200) ++ dots
      ∧ (getContextSnippet (String.data "xyz") (String.data "qq") 200).length
          ≤ 2 * 200 + dots.length) :=
  ⟨c1_amended.1 (String.data "hello world") (String.data "world") 200 6 11
      (String.data "world") (by decide),
   c1_amended.2 (String.data "xyz") (String.data "qq") 200 (by decide) (by decide)⟩

/-! ### Claim C2 -/

/-- C2 confirmed: the literal search is attempted first and the stemming
fallback runs only when every literal search fails; single-character query
words are discarded by the literal loop; the stemmer strips exactly one
suffix, the first matching one of the fixed priority list (`"creation"`
strips `ation` and not `tion`; `"nations"` strips only `s`); a root shorter
than 3 characters is never searched (`"ation"` strips to the empty root and
is skipped); and for content `"complete"` and query `"completing"` the match
is found via the stripped root `"complet"`, producing the highlighted
snippet. -/
theorem c2_stemming_fallback :
    (∀ (ws : List (List Char)) (t : List Char) (r : Nat × Nat × List Char),
      findLiteral ws t = some r → snippetMatch ws t = some r)
    ∧ (∀ (ws : List (List Char)) (t : List Char),
      findLiteral ws t = none → snippetMatch ws t = findStem ws t)
    ∧ (∀ (ws : List (List Char)) (t : List Char),
      findLiteral ws t = findLiteral (ws.filter fun w => 1 < w.length) t)
    ∧ stripOneSuffix (String.data "completing") = String.data "complet"
    ∧ stripOneSuffix (String.data "creation") = String.data "cre"
    ∧ stripOneSuffix (String.data "nations") = String.data "nation"
    ∧ findStem [String.data "ation"] (String.data "ation ation") = none
    ∧ findLiteral [String.data "completing"] (String.data "complete") = none
    ∧ findStem [String.data "completing"] (String.data "complete")
        = some (0, 7, String.data "complet")
    ∧ getContextSnippet (String.data "complete") (String.data "completing") 200
        = spanOpen ++ String.data "complete" ++ spanClose := by
  refine ⟨?_, ?_, findLiteral_filter, by decide, by decide, by decide, by decide,
    by decide, by decide, by decide⟩
  · intro ws t r h
    rw [snippetMatch, h]
  · intro ws t h
    rw [snippetMatch, h]

/-- Witness for `c2_stemming_fallback`: the universally quantified parts
applied at the `"complete"`/`"completing"` instance. -/
theorem c2_stemming_fallback_witness :
    snippetMatch [String.data "completing"] (String.data "complete")
        = findStem [String.data "completing"] (String.data "complete")
      ∧ snippetMatch [String.data "ab"] (String.data "xxabxx")
        = some (2, 4, String.data "ab")
      ∧ findLiteral [String.data "a", String.data "ab"] (String.data "xxabxx")
        = findLiteral ([String.data "a", String.data "ab"].filter
            fun w => 1 < w.length) (String.data "xxabxx") :=
  ⟨c2_stemming_fallback.2.1 [String.data "completing"] (String.data "complete")
      (by decide),
   c2_stemming_fallback.1 [String.data "ab"] (String.data "xxabxx")
      (2, 4, String.data "ab") (by decide),
   c2_stemming_fallback.2.2.1 [String.data "a", String.data "ab"]
      (String.data "xxabxx")⟩

/-! ## `app.py`: query execution with websearch→plain fallback (lines 134-170) -/

/-- The two syntax modes passed to the store's `text_search` operator. -/
inductive SynMode where
  | websearch
  | plain

/-- The inner try/except of app.py lines 153-160: attempt the text search in
websearch mode; if that execution raises, reissue the identical query in
plain mode.  The store's text-search operator is external
(supabase/Postgres) and is passed in as a function from query and syntax
mode to an `Except` outcome. -/
def runTextSearch {ε ρ : Type} (store : String → SynMode → Except ε ρ)
    (q : String) : Except ε ρ :=
  match store q SynMode.websearch with
  | Except.ok r => Except.ok r
  | Except.error _ => store q SynMode.plain

/-- What the user is shown (app.py lines 134-170): a warning when no type
filter is selected, an error banner when the outer try caught an exception,
otherwise the result set. -/
inductive UiOutcome (ε ρ : Type) where
  | filterWarning
  | searchError (e : ε)
  | results (r : ρ)

/-- The query-execution path of app.py: the non-empty type-filter guard
(line 135), the hybrid search (lines 147-160), and the outer error capture
(lines 165-170). -/
def searchPath {τ ε ρ : Type} (selectedTypes : List τ)
    (store : List τ → String → SynMode → Except ε ρ) (q : String) :
    UiOutcome ε ρ :=
  if selectedTypes.isEmpty then UiOutcome.filterWarning
  else
    match runTextSearch (store selectedTypes) q with
    | Except.ok r => UiOutcome.results r
    | Except.error e => UiOutcome.searchError e

/-! ### Claim C3 -/

/-- C3 confirmed: with a non-empty type filter, when the websearch-mode
request raises, the identical query is reissued in plain mode, and when that
plain query yields a result set the user receives it (not the original
error). -/
theorem c3_websearch_plain_fallback :
    ∀ {τ ε ρ : Type} (selectedTypes : List τ)
      (store : List τ → String → SynMode → Except ε ρ) (q : String)
      (e : ε) (rs : ρ),
      selectedTypes ≠ [] →
      store selectedTypes q SynMode.websearch = Except.error e →
      store selectedTypes q SynMode.plain = Except.ok rs →
      runTextSearch (store selectedTypes) q = store selectedTypes q SynMode.plain
        ∧ searchPath selectedTypes store q = UiOutcome.results rs := by
  intro τ ε ρ sel store q e rs hsel hws hp
  have hrun : runTextSearch (store sel) q = store sel q SynMode.plain := by
    rw [runTextSearch, hws]
  refine ⟨hrun, ?_⟩
  have hne : sel.isEmpty = false := by
    cases sel with
    | nil => exact absurd rfl hsel
    | cons a l => rfl
  rw [searchPath, hne, if_neg (by simp), hrun, hp]

/-- A concrete store for the C3 witness: the websearch parser rejects the
query, the plain mode returns a single row. -/
def demoStore : List Nat → String → SynMode → Except String (List Nat) :=
  fun _ _ m =>
    match m with
    | SynMode.websearch => Except.error "syntax error in tsquery"
    | SynMode.plain => Except.ok [7]

/-- Witness for `c3_websearch_plain_fallback` at a concrete store and
query. -/
theorem c3_websearch_plain_fallback_witness :
    runTextSearch (demoStore [1]) "unbalanced \" quote"
        = demoStore [1] "unbalanced \" quote" SynMode.plain
      ∧ searchPath [1] demoStore "unbalanced \" quote" = UiOutcome.results [7] :=
  c3_websearch_plain_fallback [1] demoStore "unbalanced \" quote"
    "syntax error in tsquery" [7] (by simp) rfl rfl

/-! ## The index table and upsert-by-id -/

/-- One row of the `attio_index` table (spec §3 `IndexedItem`): the row shape
built by `sync_attio.py` / `ai_studio_code.py`.  Metadata values are
`Option`al to model JSON nulls. -/
structure Row where
  id : String
  parent_id : Option String
  type : String
  title : String
  content : String
  url : String
  metadata : List (String × Option String)
deriving DecidableEq, Repr

/-- Modelled from the spec: the store's upsert on `attio_index` is external
to the repository (`supabase.table("attio_index").upsert`); per spec §3/§6
it is insert-or-update keyed by the primary key `id` alone. -/
def upsertRow (t : List Row) (r : Row) : List Row :=
  if t.any fun x => x.id = r.id then
    t.map fun x => if x.id = r.id then r else x
  else t ++ [r]

/-- A run of the ingestion against a fixed normalized dataset `L`: each row
is written through the store's upsert, in order. -/
def ingest (t : List Row) (L : List Row) : List Row :=
  L.foldl upsertRow t

/-- The field values the table holds for a given id. -/
def lookupId (i : String) (t : List Row) : Option Row :=
  t.find? fun r => r.id = i

/-- Table equivalence used by the idempotence claim: identical row count and
identical field values per id. -/
def sameTable (a b : List Row) : Prop :=
  a.length = b.length ∧ ∀ i : String, lookupId i a = lookupId i b

/-! ### Helper lemmas about `upsertRow`/`ingest` -/

theorem any_upsertRow (t : List Row) (r : Row) (j : String) :
    ((upsertRow t r).any fun x => x.id = j)
      = ((t.any fun x => x.id = j) || decide (r.id = j)) := by
  rw [upsertRow]
  split
  · rename_i h
    rw [List.any_map]
    have hf : ((fun x : Row => decide (x.id = j)) ∘
          fun x : Row => if x.id = r.id then r else x)
        = fun x : Row => decide (x.id = j) := by
      funext x
      by_cases hx : x.id = r.id
      · simp [hx]
      · simp [hx]
    rw [hf]
    by_cases hj : r.id = j
    · subst hj
      simp [h]
    · simp [hj]
  · simp [List.any_append]

theorem length_upsertRow (t : List Row) (r : Row) :
    (upsertRow t r).length
      = if t.any fun x => x.id = r.id then t.length else t.length + 1 := by
  rw [upsertRow]
  split <;> simp

theorem find?_update_ne (t : List Row) (r : Row) (j : String) (hj : r.id ≠ j) :
    ((t.map fun x => if x.id = r.id then r else x).find? fun x => x.id = j)
      = t.find? fun x => x.id = j := by
  induction t with
  | nil => rfl
  | cons x t ih =>
    by_cases hx : x.id = r.id
    · rw [List.map_cons, if_pos hx, List.find?_cons_of_neg _ (by simpa using hj),
        List.find?_cons_of_neg _ (by simp [hx, hj]), ih]
    · rw [List.map_cons, if_neg hx]
      by_cases hxj : x.id = j
      · rw [List.find?_cons_of_pos _ (by simpa using hxj),
          List.find?_cons_of_pos _ (by simpa using hxj)]
      · rw [List.find?_cons_of_neg _ (by simpa using hxj),
          List.find?_cons_of_neg _ (by simpa using hxj), ih]

theorem find?_update_self (t : List Row) (r : Row)
    (h : (t.any fun x => x.id = r.id) = true) :
    ((t.map fun x => if x.id = r.id then r else x).find? fun x => x.id = r.id)
      = some r := by
  induction t with
  | nil => simp at h
  | cons x t ih =>
    by_cases hx : x.id = r.id
    · rw [List.map_cons, if_pos hx, List.find?_cons_of_pos _ (by simp)]
    · rw [List.map_cons, if_neg hx, List.find?_cons_of_neg _ (by simpa using hx)]
      apply ih
      simp only [List.any_cons, Bool.or_eq_true] at h
      rcases h with h | h
      · exact absurd (by simpa using h) hx
      · exact h

theorem lookupId_upsertRow (t : List Row) (r : Row) (j : String) :
    lookupId j (upsertRow t r) = if r.id = j then some r else lookupId j t := by
  rw [lookupId, upsertRow]
  split
  · rename_i h
    by_cases hj : r.id = j
    · subst hj
      rw [if_pos rfl, find?_update_self t r h]
    · rw [if_neg hj, find?_update_ne t r j hj, lookupId]
  · rename_i h
    rw [List.find?_append]
    by_cases hj : r.id = j
    · subst hj
      have hnone : (t.find? fun x => x.id = r.id) = none := by
        rw [List.find?_eq_none]
        intro x hx
        simp only [Bool.not_eq_true] at h ⊢
        by_contra hc
        have : (t.any fun x => x.id = r.id) = true :=
          List.any_eq_true.mpr ⟨x, hx, by simpa using hc⟩
        simp [this] at h
      rw [hnone, if_pos rfl]
      simp [List.find?]
    · rw [if_neg hj]
      have : ([r].find? fun x => x.id = j) = none := by
        simp [List.find?, hj]
      rw [this, lookupId]
      cases t.find? fun x => x.id = j <;> rfl

/-- The last row of `L` carrying id `i` (the winner of sequential upserts). -/
def lastWith (i : String) (L : List Row) : Option Row :=
  L.foldl (fun acc r => if r.id = i then some r else acc) none

theorem foldl_lastWith (i : String) : ∀ (L : List Row) (acc : Option Row),
    L.foldl (fun acc r => if r.id = i then some r else acc) acc
      = match lastWith i L with
        | some v => some v
        | none => acc := by
  intro L
  induction L with
  | nil => intro acc; rfl
  | cons r L ih =>
    intro acc
    rw [List.foldl_cons, ih]
    have hR : lastWith i (r :: L)
        = match lastWith i L with
          | some v => some v
          | none => if r.id = i then some r else none := by
      rw [lastWith, List.foldl_cons, ih]
    rw [hR]
    cases lastWith i L with
    | some v => rfl
    | none => by_cases hr : r.id = i <;> simp [hr]

theorem lookupId_ingest (i : String) : ∀ (L t : List Row),
    lookupId i (ingest t L)
      = match lastWith i L with
        | some v => some v
        | none => lookupId i t := by
  intro L
  induction L with
  | nil => intro t; rfl
  | cons r L ih =>
    intro t
    rw [ingest, List.foldl_cons]
    have h1 : lookupId i (L.foldl upsertRow (upsertRow t r))
        = match lastWith i L with
          | some v => some v
          | none => lookupId i (upsertRow t r) := ih (upsertRow t r)
    rw [h1, lookupId_upsertRow]
    have hR : lastWith i (r :: L)
        = match lastWith i L with
          | some v => some v
          | none => if r.id = i then some r else none := by
      rw [lastWith, List.foldl_cons, foldl_lastWith]
    rw [hR]
    cases lastWith i L with
    | some v => rfl
    | none =>
      by_cases hr : r.id = i <;> simp [hr]

theorem any_ingest_of_any (j : String) : ∀ (L t : List Row),
    (t.any fun x => x.id = j) = true →
    ((ingest t L).any fun x => x.id = j) = true := by
  intro L
  induction L with
  | nil => intro t h; exact h
  | cons r L ih =>
    intro t h
    rw [ingest, List.foldl_cons]
    apply ih
    rw [any_upsertRow, h]
    rfl

theorem any_ingest_self : ∀ (L t : List Row) (r : Row), r ∈ L →
    ((ingest t L).any fun x => x.id = r.id) = true := by
  intro L
  induction L with
  | nil => intro t r h; cases h
  | cons a L ih =>
    intro t r h
    cases h with
    | head =>
      rw [ingest, List.foldl_cons]
      apply any_ingest_of_any
      rw [any_upsertRow]
      simp
    | tail _ h => exact ih (upsertRow t a) r h

theorem length_ingest_stable : ∀ (L t : List Row),
    (∀ r ∈ L, (t.any fun x => x.id = r.id) = true) →
    (ingest t L).length = t.length := by
  intro L
  induction L with
  | nil => intro t _; rfl
  | cons r L ih =>
    intro t h
    rw [ingest, List.foldl_cons]
    have hr : (t.any fun x => x.id = r.id) = true := h r (List.mem_cons_self r L)
    have hlen : (upsertRow t r).length = t.length := by
      rw [length_upsertRow, if_pos hr]
    have hrest : ∀ r' ∈ L, ((upsertRow t r).any fun x => x.id = r'.id) = true := by
      intro r' hr'
      rw [any_upsertRow, h r' (List.mem_cons_of_mem r hr')]
      rfl
    have hstep : (ingest (upsertRow t r) L).length = (upsertRow t r).length :=
      ih (upsertRow t r) hrest
    exact hstep.trans hlen

/-! ### Claim C4 -/

/-- C4 confirmed (store upsert modelled from the spec): upserting the same
row twice equals upserting it once; re-running the ingestion of the same
dataset leaves the table with identical row count and identical field
values; and for rows with disjoint ids the upsert order does not affect row
count or field values. -/
theorem c4_upsert_idempotent :
    (∀ (t : List Row) (r : Row), upsertRow (upsertRow t r) r = upsertRow t r)
    ∧ (∀ (t L : List Row), sameTable (ingest (ingest t L) L) (ingest t L))
    ∧ (∀ (t : List Row) (r1 r2 : Row), r1.id ≠ r2.id →
        sameTable (upsertRow (upsertRow t r1) r2) (upsertRow (upsertRow t r2) r1)) := by
  refine ⟨?_, ?_, ?_⟩
  · intro t r
    have hp : ((upsertRow t r).any fun x => x.id = r.id) = true := by
      rw [any_upsertRow]
      simp
    conv_lhs => rw [upsertRow]
    rw [if_pos hp, upsertRow]
    split
    · rw [List.map_map]
      have hff : ((fun x : Row => if x.id = r.id then r else x) ∘
            fun x : Row => if x.id = r.id then r else x)
          = fun x : Row => if x.id = r.id then r else x := by
        funext x
        by_cases hx : x.id = r.id
        · simp [hx]
        · simp [hx]
      rw [hff]
    · rename_i h
      rw [List.map_append]
      have h0 : ∀ x ∈ t, (if x.id = r.id then r else x) = x := by
        intro x hx
        rw [if_neg]
        intro hc
        have : (t.any fun x => x.id = r.id) = true :=
          List.any_eq_true.mpr ⟨x, hx, by simpa using hc⟩
        simp [this] at h
      rw [List.map_congr_left h0]
      simp
  · intro t L
    constructor
    · exact length_ingest_stable L (ingest t L) fun r hr => any_ingest_self L t r hr
    · intro i
      rw [lookupId_ingest i L (ingest t L)]
      cases hL : lastWith i L with
      | some v => rw [lookupId_ingest i L t, hL]
      | none => rfl
  · intro t r1 r2 hne
    have h12 : decide (r1.id = r2.id) = false := by simp [hne]
    have h21 : decide (r2.id = r1.id) = false := by
      have hne' : ¬ r2.id = r1.id := fun h => hne h.symm
      simp [hne']
    refine ⟨?_, ?_⟩
    · rw [length_upsertRow, length_upsertRow, length_upsertRow, length_upsertRow,
        any_upsertRow, any_upsertRow, h12, h21]
      simp only [Bool.or_false]
      by_cases ha : (t.any fun x => x.id = r1.id) = true <;>
        by_cases hb : (t.any fun x => x.id = r2.id) = true <;>
          simp [ha, hb]
    · intro i
      rw [lookupId_upsertRow, lookupId_upsertRow, lookupId_upsertRow,
        lookupId_upsertRow]
      by_cases h1 : r1.id = i <;> by_cases h2 : r2.id = i
      · exact absurd (h1.trans h2.symm) hne
      · simp [h1, h2]
      · simp [h1, h2]
      · simp [h1, h2]

/-- A person row for the witnesses. -/
def rowA : Row := Row.mk "a" none "person" "Ada" "body a" "u" []

/-- A note row for the witnesses. -/
def rowB : Row := Row.mk "b" none "note" "Note" "body b" "u" []

/-- Witness for `c4_upsert_idempotent` on a two-row dataset. -/
theorem c4_upsert_idempotent_witness :
    upsertRow (upsertRow [] rowA) rowA = upsertRow [] rowA
    ∧ sameTable (ingest (ingest [] [rowA, rowB]) [rowA, rowB])
        (ingest [] [rowA, rowB])
    ∧ sameTable (upsertRow (upsertRow [] rowA) rowB)
        (upsertRow (upsertRow [] rowB) rowA) :=
  ⟨c4_upsert_idempotent.1 [] rowA,
   c4_upsert_idempotent.2.1 [] [rowA, rowB],
   c4_upsert_idempotent.2.2 [] rowA rowB (by decide)⟩

/-! ## `sync_attio.py`: `safe_upsert` (lines 48-80) -/

/-- A store write error; `timeoutClass` models the check
`"57014" in str(e) or "timeout" in str(e).lower() or "502" in str(e)`
(line 68). -/
structure DbError where
  timeoutClass : Bool
deriving DecidableEq, Repr

/-- Metadata cleaning (lines 57-59): strip null-valued metadata keys. -/
def cleanItem (r : Row) : Row :=
  Row.mk r.id r.parent_id r.type r.title r.content r.url
    (r.metadata.filter fun kv => kv.2.isSome)

/-- What `safe_upsert` did with a batch: saved it, dropped a failing
singleton, or dropped a whole batch on a non-timeout error (the Python
function reports these through prints). -/
inductive UpsertEvent where
  | saved (batch : List Row)
  | droppedSingle (batch : List Row) (e : DbError)
  | droppedBatch (batch : List Row) (e : DbError)
deriving DecidableEq, Repr

/-- The function `safe_upsert(items)` (lines 48-80), with the store's batch write passed
in as a function from the cleaned batch to an optional error: an empty batch
returns immediately; on success the batch is saved; a timeout-class error on
a batch of more than one item bisects the batch at `len(items) // 2` and
retries each half; a timeout-class error on a single item drops it; any
other error drops the whole batch.  No branch raises. -/
def safeUpsert (store : List Row → Option DbError) (items : List Row) :
    List UpsertEvent :=
  if _hEmpty : items.isEmpty then []
  else
    match store (items.map cleanItem) with
    | none => [UpsertEvent.saved (items.map cleanItem)]
    | some e =>
      if e.timeoutClass then
        if _hOne : (items.map cleanItem).length ≤ 1 then
          [UpsertEvent.droppedSingle (items.map cleanItem) e]
        else
          safeUpsert store ((items.map cleanItem).take (items.length / 2)) ++
            safeUpsert store ((items.map cleanItem).drop (items.length / 2))
      else [UpsertEvent.droppedBatch (items.map cleanItem) e]
termination_by items.length
decreasing_by
  · simp only [List.length_take, List.length_map] at *
    omega
  · simp only [List.length_drop, List.length_map] at *
    omega

/-- The batch a single event accounts for. -/
def eventItems : UpsertEvent → List Row
  | UpsertEvent.saved b => b
  | UpsertEvent.droppedSingle b _ => b
  | UpsertEvent.droppedBatch b _ => b

/-- All items accounted for by a run of `safe_upsert`, in order. -/
def processedItems (evs : List UpsertEvent) : List Row :=
  (evs.map eventItems).flatten

theorem cleanItem_idem (r : Row) : cleanItem (cleanItem r) = cleanItem r := by
  rw [cleanItem, cleanItem]
  simp [List.filter_filter]

theorem map_cleanItem_idem (l : List Row) :
    (l.map cleanItem).map cleanItem = l.map cleanItem := by
  rw [List.map_map]
  have h : (cleanItem ∘ cleanItem) = cleanItem := funext cleanItem_idem
  rw [h]

theorem processed_safeUpsert (store : List Row → Option DbError) :
    ∀ (items : List Row),
      processedItems (safeUpsert store items) = items.map cleanItem := by
  intro items
  induction items using safeUpsert.induct store with
  | case1 items h1 =>
    rw [safeUpsert, dif_pos h1]
    rw [List.isEmpty_iff] at h1
    subst h1
    rfl
  | case2 items h1 hstore =>
    rw [safeUpsert, dif_neg h1, hstore]
    simp [processedItems, eventItems]
  | case3 items h1 e hstore ht h2 =>
    rw [safeUpsert, dif_neg h1, hstore]
    simp only [if_pos ht, dif_pos h2]
    simp [processedItems, eventItems]
  | case4 items h1 e hstore ht h2 ih1 ih2 =>
    rw [safeUpsert, dif_neg h1, hstore]
    simp only [if_pos ht, dif_neg h2]
    have hsplit : processedItems (safeUpsert store
          ((items.map cleanItem).take (items.length / 2)) ++
        safeUpsert store ((items.map cleanItem).drop (items.length / 2)))
        = processedItems (safeUpsert store
            ((items.map cleanItem).take (items.length / 2))) ++
          processedItems (safeUpsert store
            ((items.map cleanItem).drop (items.length / 2))) := by
      rw [processedItems, processedItems, processedItems, List.map_append,
        List.flatten_append]
    rw [hsplit, ih1, ih2, ← List.map_take, ← List.map_drop,
      map_cleanItem_idem, map_cleanItem_idem, List.map_take, List.map_drop,
      List.take_append_drop]
  | case5 items h1 e hstore ht =>
    rw [safeUpsert, dif_neg h1, hstore]
    simp only [if_neg ht]
    simp [processedItems, eventItems]

/-! ### Claim C7 -/

/-- C7 confirmed: `safe_upsert` is total (it is accepted by well-founded
recursion on the batch length) and accounts for every cleaned item exactly
once — nothing raises and nothing is retried past a singleton; a
timeout-class error on a non-singleton batch bisects at the midpoint and
retries each half; a timeout-class error on a singleton drops that item; a
non-timeout error drops the whole batch. -/
theorem c7_safe_upsert :
    (∀ (store : List Row → Option DbError) (items : List Row),
      processedItems (safeUpsert store items) = items.map cleanItem)
    ∧ (∀ (store : List Row → Option DbError) (items : List Row) (e : DbError),
      items ≠ [] → store (items.map cleanItem) = some e →
      e.timeoutClass = false →
      safeUpsert store items = [UpsertEvent.droppedBatch (items.map cleanItem) e])
    ∧ (∀ (store : List Row → Option DbError) (i : Row) (e : DbError),
      store [cleanItem i] = some e → e.timeoutClass = true →
      safeUpsert store [i] = [UpsertEvent.droppedSingle [cleanItem i] e])
    ∧ (∀ (store : List Row → Option DbError) (items : List Row) (e : DbError),
      2 ≤ items.length → store (items.map cleanItem) = some e →
      e.timeoutClass = true →
      safeUpsert store items =
        safeUpsert store ((items.map cleanItem).take (items.length / 2)) ++
          safeUpsert store ((items.map cleanItem).drop (items.length / 2))) := by
  refine ⟨processed_safeUpsert, ?_, ?_, ?_⟩
  · intro store items e hne hstore ht
    have h1 : ¬ items.isEmpty := by
      rw [List.isEmpty_iff]
      exact hne
    rw [safeUpsert, dif_neg h1, hstore]
    simp only [if_neg (show ¬ e.timeoutClass = true by simp [ht])]
  · intro store i e hstore ht
    have h1 : ¬ ([i].isEmpty = true) := by simp
    rw [safeUpsert, dif_neg h1]
    have : [i].map cleanItem = [cleanItem i] := rfl
    rw [this, hstore]
    simp only [if_pos ht, dif_pos (show ([cleanItem i]).length ≤ 1 by simp)]
  · intro store items e hlen hstore ht
    have h1 : ¬ items.isEmpty := by
      rw [List.isEmpty_iff]
      intro hc
      subst hc
      simp at hlen
    rw [safeUpsert, dif_neg h1, hstore]
    simp only [if_pos ht,
      dif_neg (show ¬ (items.map cleanItem).length ≤ 1 by
        simp only [List.length_map]; omega)]

/-- A store that times out on any batch of more than one row for the C7
witness. -/
def bigBatchTimeout : List Row → Option DbError :=
  fun b => if 2 ≤ b.length then some (DbError.mk true) else none

/-- An always-failing non-timeout store for the C7 witness. -/
def hardFailStore : List Row → Option DbError :=
  fun _ => some (DbError.mk false)

/-- An always-timeout store for the C7 witness. -/
def timeoutStore : List Row → Option DbError :=
  fun _ => some (DbError.mk true)

/-- Witness for `c7_safe_upsert` at concrete stores and batches. -/
theorem c7_safe_upsert_witness :
    processedItems (safeUpsert bigBatchTimeout [rowA, rowB])
        = [rowA, rowB].map cleanItem
    ∧ safeUpsert hardFailStore [rowA]
        = [UpsertEvent.droppedBatch ([rowA].map cleanItem) (DbError.mk false)]
    ∧ safeUpsert timeoutStore [rowA]
        = [UpsertEvent.droppedSingle [cleanItem rowA] (DbError.mk true)]
    ∧ safeUpsert timeoutStore [rowA, rowB] =
        safeUpsert timeoutStore (([rowA, rowB].map cleanItem).take 1) ++
          safeUpsert timeoutStore (([rowA, rowB].map cleanItem).drop 1) :=
  ⟨c7_safe_upsert.1 bigBatchTimeout [rowA, rowB],
   c7_safe_upsert.2.1 hardFailStore [rowA] (DbError.mk false) (by simp) rfl rfl,
   c7_safe_upsert.2.2.1 timeoutStore rowA (DbError.mk true) rfl rfl,
   c7_safe_upsert.2.2.2 timeoutStore [rowA, rowB] (DbError.mk true)
     (by simp) rfl rfl⟩

/-! ## HTTP fetch helpers: `attio_get` (ai_studio_code.py lines 13-25) and
`make_request` (sync_attio.py lines 30-45) -/

/-- The parsed `{ "data": [...] }` envelope: `none` when the JSON object has
no `"data"` key (so `.get("data", [])` defaults), `some l` otherwise; list
elements are abstracted as strings. -/
abbrev Payload := Option (List String)

/-- Outcome of one `requests.get`/`requests.post` attempt: the request
raised, or a response arrived with a status code and a body whose JSON
parse (`response.json()`) either raises (`Except.error`) or yields an
envelope. -/
inductive FetchOutcome where
  | exn
  | resp (status : Nat) (body : Except Unit Payload)

/-- A response object as returned by the fetch helper. -/
structure Resp where
  status : Nat
  body : Except Unit Payload

/-- The function `attio_get(endpoint, params)` (ai_studio_code.py lines 13-25) given the
outcome of its HTTP call: non-200 responses return `[]`, any exception
(including a JSON parse failure of the body) is caught and returns `[]`,
otherwise the `data` list (defaulting to `[]`) is returned. -/
def attio_get (o : FetchOutcome) : List String :=
  match o with
  | FetchOutcome.exn => []
  | FetchOutcome.resp status body =>
    if status ≠ 200 then []
    else
      match body with
      | Except.error _ => []
      | Except.ok env => env.getD []

/-- The function `make_request(method, url, params, json_data)` (sync_attio.py lines
30-45) against a server modelled as the stream of outcomes of successive
attempts: an exception returns `none` (Python `None`); a 429 sleeps 5s and
retries the same request with no retry cap; any other response is returned
as-is.  `fuel` bounds how many attempts the model observes; the outer
`none` means the function was still retrying when `fuel` ran out. -/
def make_request (server : Nat → FetchOutcome) : Nat → Nat → Option (Option Resp)
  | 0, _ => none
  | fuel + 1, k =>
    match server k with
    | FetchOutcome.exn => some none
    | FetchOutcome.resp s b =>
      if s = 429 then make_request server fuel (k + 1)
      else some (some (Resp.mk s b))

/-- The expression `res.json().get("data", [])` as evaluated by the sync loops of
`sync_attio.py` (e.g. line 132), with no exception handler around it. -/
def jsonData (r : Resp) : Except Unit (List String) :=
  match r.body with
  | Except.error e => Except.error e
  | Except.ok env => Except.ok (env.getD [])

/-- The people-page extraction of `sync_transcripts_smart` (lines 127-132):
`if not res:` is Python truthiness (`None` and any status ≥ 400 are falsy,
making the loop break before the parse), and a truthy response flows into
`res.json().get("data", [])` unguarded. -/
def peopleExtract (res : Option Resp) : Except Unit (List String) :=
  match res with
  | none => Except.ok []
  | some r => if r.status < 400 then jsonData r else Except.ok []

/-- A server that answers HTTP 429 to every attempt. -/
def always429 : Nat → FetchOutcome :=
  fun _ => FetchOutcome.resp 429 (Except.ok none)

theorem make_request_always429 : ∀ (fuel k : Nat),
    make_request always429 fuel k = none := by
  intro fuel
  induction fuel with
  | zero => intro k; rfl
  | succ n ih => intro k; exact ih (k + 1)

/-! ### Claim C5 -/

/-- C5 counterexample: in `sync_attio.py` the fetch helper returns the raw
response itself — `make_request` on a 200 response with a malformed JSON
body hands that response to the caller — and `sync_transcripts_smart` then
evaluates `res.json().get("data", [])` with no handler, so the extraction
raises (`Except.error`) instead of yielding an empty sequence; the exception
reaches the top-level handler, which exits 1, aborting the run. -/
theorem c5_counterexample :
    make_request (fun _ => FetchOutcome.resp 200 (Except.error ())) 1 0
        = some (some (Resp.mk 200 (Except.error ())))
    ∧ peopleExtract (some (Resp.mk 200 (Except.error ()))) = Except.error () :=
  ⟨rfl, rfl⟩

/-- C5 amended: the fail-soft contract holds for `attio_get` in
`ai_studio_code.py` (empty list on exception, on any non-200 status, and on
a malformed 200 body; nothing raises), but `make_request` in `sync_attio.py`
returns the raw response (or `None` on exception) rather than a sequence,
and the body parse done by its callers re-raises whatever the body holds,
so a malformed body on a truthy response aborts the run. -/
theorem c5_amended :
    attio_get FetchOutcome.exn = []
    ∧ (∀ (s : Nat) (b : Except Unit Payload), s ≠ 200 →
        attio_get (FetchOutcome.resp s b) = [])
    ∧ (∀ e : Unit, attio_get (FetchOutcome.resp 200 (Except.error e)) = [])
    ∧ (∀ (server : Nat → FetchOutcome) (fuel k s : Nat)
        (b : Except Unit Payload),
        server k = FetchOutcome.resp s b → s ≠ 429 →
        make_request server (fuel + 1) k = some (some (Resp.mk s b)))
    ∧ (∀ (server : Nat → FetchOutcome) (fuel k : Nat),
        server k = FetchOutcome.exn → make_request server (fuel + 1) k = some none)
    ∧ (∀ r : Resp, r.body = Except.error () → jsonData r = Except.error ()) := by
  refine ⟨rfl, ?_, fun e => rfl, ?_, ?_, ?_⟩
  · intro s b h
    rw [attio_get.eq_def]
    simp only [if_pos h]
  · intro server fuel k s b hsrv hs
    rw [make_request, hsrv]
    simp only [if_neg hs]
  · intro server fuel k hsrv
    rw [make_request, hsrv]
  · intro r h
    rw [jsonData.eq_def, h]

/-- Witness for `c5_amended` at concrete responses. -/
theorem c5_amended_witness :
    attio_get (FetchOutcome.resp 500 (Except.ok none)) = []
    ∧ make_request (fun _ => FetchOutcome.resp 500 (Except.ok none)) 1 0
        = some (some (Resp.mk 500 (Except.ok none)))
    ∧ jsonData (Resp.mk 200 (Except.error ())) = Except.error () :=
  ⟨c5_amended.2.1 500 (Except.ok none) (by decide),
   c5_amended.2.2.2.1 (fun _ => FetchOutcome.resp 500 (Except.ok none)) 0 0 500
     (Except.ok none) rfl (by decide),
   c5_amended.2.2.2.2.2 (Resp.mk 200 (Except.error ())) rfl⟩

/-! ### Claim C6 -/

/-- C6 counterexample: against a server that answers 429 on every attempt,
`make_request` is still retrying after 1000 attempts — there is no retry
cap, so the function does not perform a bounded number of attempts and does
not terminate on an all-429 server. -/
theorem c6_counterexample : make_request always429 1000 0 = none :=
  make_request_always429 1000 0

/-- C6 amended: a 429 response triggers a fixed 5-second sleep followed by
an unconditional retry of the identical request with no retry cap: the
function returns only when an attempt yields a non-429 response (returned
as-is) or an exception (returning `None`); against a server that answers
429 on every attempt it never returns, however many attempts are
observed. -/
theorem c6_amended :
    (∀ (fuel k : Nat), make_request always429 fuel k = none)
    ∧ (∀ (server : Nat → FetchOutcome) (fuel k : Nat)
        (b : Except Unit Payload),
        server k = FetchOutcome.resp 429 b →
        make_request server (fuel + 1) k = make_request server fuel (k + 1))
    ∧ (∀ (server : Nat → FetchOutcome) (fuel k s : Nat)
        (b : Except Unit Payload),
        server k = FetchOutcome.resp s b → s ≠ 429 →
        make_request server (fuel + 1) k = some (some (Resp.mk s b)))
    ∧ (∀ (server : Nat → FetchOutcome) (fuel k : Nat),
        server k = FetchOutcome.exn →
        make_request server (fuel + 1) k = some none) := by
  refine ⟨make_request_always429, ?_, ?_, ?_⟩
  · intro server fuel k b hsrv
    rw [make_request, hsrv]
    simp
  · intro server fuel k s b hsrv hs
    rw [make_request, hsrv]
    simp only [if_neg hs]
  · intro server fuel k hsrv
    rw [make_request, hsrv]

/-- A server for the C6 witness: 429 on the first attempt, then 200. -/
def server429Then200 : Nat → FetchOutcome :=
  fun k =>
    if k = 0 then FetchOutcome.resp 429 (Except.ok none)
    else FetchOutcome.resp 200 (Except.ok (some ["row"]))

/-- A server that always raises, for the C6 witness. -/
def serverExn : Nat → FetchOutcome :=
  fun _ => FetchOutcome.exn

/-- Witness for `c6_amended` at concrete servers. -/
theorem c6_amended_witness :
    make_request always429 5 3 = none
    ∧ make_request server429Then200 2 0 = make_request server429Then200 1 1
    ∧ make_request server429Then200 1 1
        = some (some (Resp.mk 200 (Except.ok (some ["row"]))))
    ∧ make_request serverExn 1 0 = some none :=
  ⟨c6_amended.1 5 3,
   c6_amended.2.1 server429Then200 1 0 (Except.ok none) rfl,
   c6_amended.2.2.1 server429Then200 0 1 200 (Except.ok (some ["row"])) rfl
     (by decide),
   c6_amended.2.2.2 serverExn 0 0 rfl⟩

/-! ## Startup configuration (sync_attio.py lines 9-24, ai_studio_code.py
lines 7-11) -/

/-- The three secrets read from the environment. -/
structure Env where
  attioKey : Option String
  supabaseUrl : Option String
  supabaseKey : Option String

/-- Python falsiness of `os.environ.get(...)`: unset (`None`) or empty. -/
def missingSecret : Option String → Bool
  | none => true
  | some s => s.isEmpty

/-- Modelled from the spec: `supabase.create_client` is external to the
repository; per spec §6 the store client needs both the endpoint URL and
the service credential, so client creation raises when either is missing. -/
def createClientRaises (url key : Option String) : Bool :=
  missingSecret url || missingSecret key

/-- How `sync_attio.py` startup can end. -/
inductive SyncStartup where
  | exitSecretsMissing
  | exitDbConnectFailed
  | runSync
deriving DecidableEq, Repr

/-- Startup of `sync_attio.py` (lines 9-24): the explicit check covers only
`ATTIO_API_KEY` and `SUPABASE_URL` (line 15, printing "Secrets missing" and
exiting 1); `create_client` is then attempted and a raise is caught and
turned into exit 1 (lines 19-24); only then does the sync run. -/
def syncAttioStartup (e : Env) : SyncStartup :=
  if missingSecret e.attioKey || missingSecret e.supabaseUrl then
    SyncStartup.exitSecretsMissing
  else if createClientRaises e.supabaseUrl e.supabaseKey then
    SyncStartup.exitDbConnectFailed
  else SyncStartup.runSync

/-- How loading `ai_studio_code.py` can end. -/
inductive AiStartup where
  | fatalCrash
  | proceedToSync
deriving DecidableEq, Repr

/-- Startup of `ai_studio_code.py` (lines 7-11): `create_client` is called
at module level with no check and no handler (an uncaught raise is a fatal
crash), and `ATTIO_API_KEY` is never validated anywhere. -/
def aiStudioStartup (e : Env) : AiStartup :=
  if createClientRaises e.supabaseUrl e.supabaseKey then AiStartup.fatalCrash
  else AiStartup.proceedToSync

/-! ### Claim C8 -/

/-- C8 counterexample: with the two store secrets present but the source-API
bearer key absent, `ai_studio_code.py` starts up normally and proceeds to
the sync work (each fetch then fails soft to `[]` and the process exits 0),
contradicting the claim that any missing secret is a fatal startup error. -/
theorem c8_counterexample :
    missingSecret (Env.mk none (some "https://x.supabase.co") (some "svc")).attioKey
        = true
    ∧ aiStudioStartup (Env.mk none (some "https://x.supabase.co") (some "svc"))
        = AiStartup.proceedToSync :=
  ⟨rfl, rfl⟩

/-- C8 amended: in `sync_attio.py` the absence of any of the three secrets
does abort startup with exit 1 before any sync work (the bearer key and
store URL via the explicit check, the store credential via the caught
`create_client` failure); in `ai_studio_code.py` only the two store secrets
are enforced, by the uncaught `create_client` raise, while a missing bearer
key is not detected and the sync proceeds. -/
theorem c8_amended :
    (∀ e : Env,
      (missingSecret e.attioKey || missingSecret e.supabaseUrl ||
        missingSecret e.supabaseKey) = true →
      syncAttioStartup e ≠ SyncStartup.runSync)
    ∧ (∀ e : Env,
      (missingSecret e.supabaseUrl || missingSecret e.supabaseKey) = true →
      aiStudioStartup e = AiStartup.fatalCrash)
    ∧ (∀ e : Env, missingSecret e.supabaseUrl = false →
      missingSecret e.supabaseKey = false →
      aiStudioStartup e = AiStartup.proceedToSync) := by
  refine ⟨?_, ?_, ?_⟩
  · intro e h
    rw [syncAttioStartup]
    by_cases h1 : (missingSecret e.attioKey || missingSecret e.supabaseUrl) = true
    · rw [if_pos h1]
      simp
    · rw [if_neg h1]
      have hk : missingSecret e.supabaseKey = true := by
        simp only [Bool.or_eq_true] at h h1
        rcases h with (h | h) | h
        · exact absurd (Or.inl h) h1
        · exact absurd (Or.inr h) h1
        · exact h
      have hc : createClientRaises e.supabaseUrl e.supabaseKey = true := by
        rw [createClientRaises, hk]
        simp
      rw [if_pos hc]
      simp
  · intro e h
    rw [aiStudioStartup, if_pos (by rw [createClientRaises]; exact h)]
  · intro e hu hk
    rw [aiStudioStartup,
      if_neg (by rw [createClientRaises, hu, hk]; simp)]

/-- Witness for `c8_amended` at concrete environments. -/
theorem c8_amended_witness :
    syncAttioStartup (Env.mk (some "ak") (some "url") none) ≠ SyncStartup.runSync
    ∧ aiStudioStartup (Env.mk (some "ak") none (some "svc")) = AiStartup.fatalCrash
    ∧ aiStudioStartup (Env.mk none (some "url") (some "svc"))
        = AiStartup.proceedToSync :=
  ⟨c8_amended.1 (Env.mk (some "ak") (some "url") none) (by decide),
   c8_amended.2.1 (Env.mk (some "ak") none (some "svc")) (by decide),
   c8_amended.2.2 (Env.mk none (some "url") (some "svc")) (by decide) (by decide)⟩

/-! ## Pagination loops (sync_attio.py lines 106-183, 186-221, 224-260) -/

/-- The offset/limit loop shared by `sync_notes_cached` (lines 192-221) and
`sync_standard` (lines 233-260): request a page at `offset`; stop when the
fetch fails or the response is falsy/non-200 (`server _ = none` abstracts
both), when the page is empty, and when the page is shorter than `limit`;
otherwise advance `offset` by `limit`.  Returns the list of offsets
requested, or `none` when `fuel` iterations did not reach a stopping
page. -/
def standardLoop (server : Nat → Option (List String)) (limit : Nat) :
    Nat → Nat → Option (List Nat)
  | 0, _ => none
  | fuel + 1, offset =>
    match server offset with
    | none => some [offset]
    | some data =>
      if data.isEmpty then some [offset]
      else if data.length < limit then some [offset]
      else (standardLoop server limit fuel (offset + limit)).map
        fun rest => offset :: rest

/-- The constant `MAX_PEOPLE_SCAN` (sync_attio.py line 119). -/
def MAX_PEOPLE_SCAN : Nat := 1000

/-- The people-scanning loop of `sync_transcripts_smart` (lines 122-181):
`while total_people_scanned < MAX_PEOPLE_SCAN`, request a page of people
(the sort-fallback re-request of lines 127-130 is abstracted into `server`),
break when the fetch fails or the page is empty, and otherwise advance both
the scanned count and the offset by the page length (lines 180-181).
Returns the `(offset, scanned-so-far)` state of every request issued and
the final scanned count; `none` when `fuel` ran out. -/
def transcriptLoop (server : Nat → Option (List String)) :
    Nat → Nat → Nat → Option (List (Nat × Nat) × Nat)
  | 0, _, _ => none
  | fuel + 1, scanned, offset =>
    if scanned < MAX_PEOPLE_SCAN then
      match server offset with
      | none => some ([(offset, scanned)], scanned)
      | some people =>
        if people.isEmpty then some ([(offset, scanned)], scanned)
        else (transcriptLoop server fuel (scanned + people.length)
            (offset + people.length)).map
          fun rf => ((offset, scanned) :: rf.1, rf.2)
    else some ([], scanned)

/-- A stopping page for the offset/limit loop: the fetch fails (or the
response is falsy/non-200), or the page is empty, or the page is shorter
than the limit. -/
def stopPage (server : Nat → Option (List String)) (limit o : Nat) : Prop :=
  match server o with
  | none => True
  | some data => data = [] ∨ data.length < limit

theorem standardLoop_stop (server : Nat → Option (List String))
    (limit fuel offset : Nat) (data : List String)
    (hsrv : server offset = some data) (hshort : data.length < limit) :
    standardLoop server limit (fuel + 1) offset = some [offset] := by
  rw [standardLoop, hsrv]
  by_cases he : data.isEmpty
  · simp only [if_pos he]
  · simp only [if_neg he, if_pos hshort]

theorem standardLoop_continue (server : Nat → Option (List String))
    (limit fuel offset : Nat) (data : List String)
    (hsrv : server offset = some data) (hne : ¬ data.isEmpty)
    (hfull : ¬ data.length < limit) :
    standardLoop server limit (fuel + 1) offset
      = (standardLoop server limit fuel (offset + limit)).map
          fun rest => offset :: rest := by
  rw [standardLoop, hsrv]
  simp only [if_neg hne, if_neg hfull]

theorem standardLoop_terminates (server : Nat → Option (List String))
    (limit : Nat) : ∀ (i offset fuel : Nat),
    stopPage server limit (offset + limit * i) → i < fuel →
    standardLoop server limit fuel offset ≠ none := by
  intro i
  induction i with
  | zero =>
    intro offset fuel hstop hf
    cases fuel with
    | zero => omega
    | succ n =>
      rw [stopPage] at hstop
      simp only [Nat.mul_zero, Nat.add_zero] at hstop
      cases hsrv : server offset with
      | none => simp [standardLoop, hsrv]
      | some data =>
        rw [hsrv] at hstop
        rcases hstop with h | h
        · subst h
          simp [standardLoop, hsrv]
        · rw [standardLoop_stop server limit n offset data hsrv h]
          simp
  | succ i ih =>
    intro offset fuel hstop hf
    cases fuel with
    | zero => omega
    | succ n =>
      cases hsrv : server offset with
      | none => simp [standardLoop, hsrv]
      | some data =>
        by_cases he : data.isEmpty
        · rw [standardLoop, hsrv]
          simp [he]
        · by_cases hl : data.length < limit
          · rw [standardLoop_stop server limit n offset data hsrv hl]
            simp
          · rw [standardLoop_continue server limit n offset data hsrv he hl]
            have hstop' : stopPage server limit ((offset + limit) + limit * i) := by
              have harith : (offset + limit) + limit * i = offset + limit * (i + 1) := by
                ring
              rw [harith]
              exact hstop
            have hrec := ih (offset + limit) n hstop' (by omega)
            cases hr : standardLoop server limit n (offset + limit) with
            | none => exact absurd hr hrec
            | some rest => simp [hr]

theorem transcriptLoop_continue (server : Nat → Option (List String))
    (fuel scanned offset : Nat) (people : List String)
    (hcap : scanned < MAX_PEOPLE_SCAN) (hsrv : server offset = some people)
    (hne : ¬ people.isEmpty) :
    transcriptLoop server (fuel + 1) scanned offset
      = (transcriptLoop server fuel (scanned + people.length)
          (offset + people.length)).map
        fun rf => ((offset, scanned) :: rf.1, rf.2) := by
  rw [transcriptLoop, if_pos hcap, hsrv]
  simp only [if_neg hne]

theorem transcriptLoop_terminates (server : Nat → Option (List String)) :
    ∀ (fuel scanned offset : Nat), MAX_PEOPLE_SCAN - scanned < fuel →
    transcriptLoop server fuel scanned offset ≠ none := by
  intro fuel
  induction fuel with
  | zero => intro scanned offset h; omega
  | succ n ih =>
    intro scanned offset h
    by_cases hcap : scanned < MAX_PEOPLE_SCAN
    · cases hsrv : server offset with
      | none => simp [transcriptLoop, if_pos hcap, hsrv]
      | some people =>
        by_cases he : people.isEmpty
        · rw [transcriptLoop, if_pos hcap, hsrv]
          simp [he]
        · rw [transcriptLoop_continue server n scanned offset people hcap hsrv he]
          have hlen : 1 ≤ people.length := by
            cases people with
            | nil => simp at he
            | cons a l => simp
          have hrec := ih (scanned + people.length) (offset + people.length)
            (by omega)
          cases hr : transcriptLoop server n (scanned + people.length)
              (offset + people.length) with
          | none => exact absurd hr hrec
          | some rf => simp [hr]
    · rw [transcriptLoop, if_neg hcap]
      simp

theorem transcriptLoop_invariant (server : Nat → Option (List String))
    (hsrv : ∀ (o : Nat) (p : List String), server o = some p → p.length ≤ 100) :
    ∀ (fuel scanned offset : Nat) (reqs : List (Nat × Nat)) (fin : Nat),
    transcriptLoop server fuel scanned offset = some (reqs, fin) →
    fin ≤ max scanned 1099 ∧ ∀ rs ∈ reqs, rs.2 < MAX_PEOPLE_SCAN := by
  intro fuel
  induction fuel with
  | zero => intro scanned offset reqs fin h; simp [transcriptLoop] at h
  | succ n ih =>
    intro scanned offset reqs fin h
    by_cases hcap : scanned < MAX_PEOPLE_SCAN
    · rw [transcriptLoop, if_pos hcap] at h
      cases hpage : server offset with
      | none =>
        rw [hpage] at h
        simp only [Option.some.injEq, Prod.mk.injEq] at h
        obtain ⟨hreqs, hfin⟩ := h
        subst hreqs; subst hfin
        refine ⟨by omega, ?_⟩
        intro rs hrs
        simp only [List.mem_singleton] at hrs
        subst hrs
        exact hcap
      | some people =>
        rw [hpage] at h
        by_cases he : people.isEmpty
        · simp only [if_pos he] at h
          simp only [Option.some.injEq, Prod.mk.injEq] at h
          obtain ⟨hreqs, hfin⟩ := h
          subst hreqs; subst hfin
          refine ⟨by omega, ?_⟩
          intro rs hrs
          simp only [List.mem_singleton] at hrs
          subst hrs
          exact hcap
        · simp only [if_neg he] at h
          cases hr : transcriptLoop server n (scanned + people.length)
              (offset + people.length) with
          | none =>
            rw [hr] at h
            simp at h
          | some rf =>
            rw [hr] at h
            have hpair : ((offset, scanned) :: rf.1, rf.2) = (reqs, fin) :=
              Option.some.inj h
            have hreqs : (offset, scanned) :: rf.1 = reqs :=
              congrArg Prod.fst hpair
            have hfin : rf.2 = fin := congrArg Prod.snd hpair
            have hp100 : people.length ≤ 100 := hsrv offset people hpage
            have hrec := ih (scanned + people.length) (offset + people.length)
              rf.1 rf.2 (by rw [hr])
            constructor
            · have : fin = rf.2 := hfin.symm
              subst this
              have hm : MAX_PEOPLE_SCAN = 1000 := rfl
              have := hrec.1
              omega
            · intro rs hrs
              rw [← hreqs] at hrs
              simp only [List.mem_cons] at hrs
              rcases hrs with hrs | hrs
              · subst hrs
                exact hcap
              · exact hrec.2 rs hrs
    · rw [transcriptLoop, if_neg hcap] at h
      simp only [Option.some.injEq, Prod.mk.injEq] at h
      obtain ⟨hreqs, hfin⟩ := h
      subst hreqs; subst hfin
      refine ⟨by omega, ?_⟩
      intro rs hrs
      simp at hrs

/-! ### Claim C9 -/

/-- A source whose every people page holds 50 items (shorter than the
requested limit of 100), for the C9/C10 concrete runs. -/
def pages50 : Nat → Option (List String) :=
  fun _ => some (List.replicate 50 "p")

/-- C9 counterexample: the transcript loop does not use short-page
termination.  Against a source whose first page has 50 items — fewer than
the requested limit of 100 — `sync_transcripts_smart` keeps requesting
pages: it issues 20 requests (offsets 0, 50, …, 950) until the
`MAX_PEOPLE_SCAN` cap is hit, instead of stopping after the one short
page. -/
theorem c9_counterexample :
    (pages50 0).map List.length = some 50
    ∧ (transcriptLoop pages50 1001 0 0).map (fun rf => rf.1.length)
        = some 20 := by
  constructor
  · decide
  · decide

/-- C9 amended: `sync_notes_cached` and `sync_standard` stop requesting
further pages at the first short, empty, or failed page and terminate
whenever such a page eventually exists; `sync_transcripts_smart`, however,
continues past short non-empty pages — it stops only on an empty page, a
failed fetch, or once `MAX_PEOPLE_SCAN` people have been scanned — and it
always terminates within `MAX_PEOPLE_SCAN + 1` iterations. -/
theorem c9_amended :
    (∀ (server : Nat → Option (List String)) (limit fuel offset : Nat)
      (data : List String), server offset = some data → data.length < limit →
      standardLoop server limit (fuel + 1) offset = some [offset])
    ∧ (∀ (server : Nat → Option (List String)) (limit fuel offset : Nat)
      (data : List String), server offset = some data → ¬ data.isEmpty →
      ¬ data.length < limit →
      standardLoop server limit (fuel + 1) offset
        = (standardLoop server limit fuel (offset + limit)).map
            fun rest => offset :: rest)
    ∧ (∀ (server : Nat → Option (List String)) (limit i offset fuel : Nat),
      stopPage server limit (offset + limit * i) → i < fuel →
      standardLoop server limit fuel offset ≠ none)
    ∧ (∀ (server : Nat → Option (List String)) (fuel scanned offset : Nat)
      (people : List String), scanned < MAX_PEOPLE_SCAN →
      server offset = some people → ¬ people.isEmpty →
      transcriptLoop server (fuel + 1) scanned offset
        = (transcriptLoop server fuel (scanned + people.length)
            (offset + people.length)).map
          fun rf => ((offset, scanned) :: rf.1, rf.2))
    ∧ (∀ (server : Nat → Option (List String)) (fuel scanned offset : Nat),
      MAX_PEOPLE_SCAN - scanned < fuel →
      transcriptLoop server fuel scanned offset ≠ none) :=
  ⟨standardLoop_stop, standardLoop_continue,
   fun server limit i offset fuel => standardLoop_terminates server limit i offset fuel,
   transcriptLoop_continue, transcriptLoop_terminates⟩

/-- A source with a single short page, for the C9 witness. -/
def oneShortPage : Nat → Option (List String) :=
  fun _ => some ["only"]

/-- A source whose every page is exactly the 100-item limit, for the C9
witness. -/
def pages100 : Nat → Option (List String) :=
  fun _ => some (List.replicate 100 "p")

/-- Witness for `c9_amended` at concrete sources. -/
theorem c9_amended_witness :
    standardLoop oneShortPage 100 1 0 = some [0]
    ∧ standardLoop pages100 100 1 0
        = (standardLoop pages100 100 0 (0 + 100)).map (fun rest => 0 :: rest)
    ∧ standardLoop oneShortPage 100 1 0 ≠ none
    ∧ transcriptLoop pages50 1 0 0
        = (transcriptLoop pages50 0 (0 + (List.replicate 50 "p").length)
            (0 + (List.replicate 50 "p").length)).map
          (fun rf => ((0, 0) :: rf.1, rf.2))
    ∧ transcriptLoop pages50 1001 0 0 ≠ none :=
  ⟨c9_amended.1 oneShortPage 100 0 0 ["only"] rfl (by decide),
   c9_amended.2.1 pages100 100 0 0 (List.replicate 100 "p") rfl (by decide)
     (by decide),
   c9_amended.2.2.1 oneShortPage 100 0 0 1
     (by simp [stopPage, oneShortPage]) (by decide),
   c9_amended.2.2.2.1 pages50 0 0 0 (List.replicate 50 "p") (by decide) rfl
     (by decide),
   c9_amended.2.2.2.2 pages50 1001 0 0 (by decide)⟩

/-! ### Claim C10 -/

/-- C10 confirmed: whenever the source honours the requested page limit of
100, the transcript sync scans a bounded number of people per run — a page
is requested only in states where fewer than `MAX_PEOPLE_SCAN = 1000`
people have been scanned, the final scanned count never exceeds
1099 = 999 + 100, and the loop always terminates within
`MAX_PEOPLE_SCAN + 1` iterations. -/
theorem c10_scan_cap :
    ∀ (server : Nat → Option (List String)),
      (∀ (o : Nat) (p : List String), server o = some p → p.length ≤ 100) →
      (∀ (fuel : Nat) (reqs : List (Nat × Nat)) (fin : Nat),
        transcriptLoop server fuel 0 0 = some (reqs, fin) →
        fin ≤ 1099 ∧ ∀ rs ∈ reqs, rs.2 < MAX_PEOPLE_SCAN)
      ∧ (∀ (fuel scanned offset : Nat), MAX_PEOPLE_SCAN - scanned < fuel →
          transcriptLoop server fuel scanned offset ≠ none) := by
  intro server hsrv
  refine ⟨?_, transcriptLoop_terminates server⟩
  intro fuel reqs fin h
  have := transcriptLoop_invariant server hsrv fuel 0 0 reqs fin h
  refine ⟨?_, this.2⟩
  have h1 := this.1
  omega

/-- Witness for `c10_scan_cap`: the 50-per-page source scans exactly 1000
people over 20 requests, all issued below the cap. -/
theorem c10_scan_cap_witness :
    (1000 ≤ 1099
      ∧ ∀ rs ∈ (List.range 20).map (fun i => (50 * i, 50 * i)),
          rs.2 < MAX_PEOPLE_SCAN)
    ∧ transcriptLoop pages50 1001 0 0 ≠ none := by
  have hsrv : ∀ (o : Nat) (p : List String), pages50 o = some p → p.length ≤ 100 := by
    intro o p h
    rw [pages50] at h
    cases h
    simp
  have hrun : transcriptLoop pages50 1001 0 0
      = some ((List.range 20).map (fun i => (50 * i, 50 * i)), 1000) := by decide
  have hmain := (c10_scan_cap pages50 hsrv).1 1001
    ((List.range 20).map (fun i => (50 * i, 50 * i))) 1000 hrun
  exact ⟨⟨hmain.1, hmain.2⟩, (c10_scan_cap pages50 hsrv).2 1001 0 0 (by decide)⟩

end Attio
